import Mathlib

/-!
Verification development for the ESP8266 GPS logger storage engine
(`ESP8266_GPSlogger_SPIflashV2.0_withKML.ino`).

The flash medium is modelled as a byte function `Nat → Nat`; every byte
written by the firmware is `< 256`.  The metadata journal, its replay
(`loadMetaIndex`), the data-log stream writer (`dataWriteStream`), the
lazy sector erase (`ensureErasedForAddr`), and the streaming KML export
are embedded as executable functions translated from the source.

C `while` loops are translated as structural recursion, either on the
input list or on an explicit iteration-count argument whose value is an
exact upper bound on the number of iterations the C loop can perform
(so that the zero-iterations-left branch is unreachable); each such
bound is justified in a comment at the definition.
-/

namespace GpsLogger

set_option maxRecDepth 4000000
set_option maxHeartbeats 16000000

/-! ## Flash layout constants (from the source) -/

def EXT_SECTOR_SIZE : Nat := 4096
def EXT_PAGE_SIZE : Nat := 256
def FLASH_SIZE_BYTES : Nat := 0x400000
def META_START : Nat := 0x00000
def META_END : Nat := 0x10000
def DATA_START : Nat := 0x10000
def DATA_END : Nat := FLASH_SIZE_BYTES
def META_MAGIC : Nat := 0x4D455441
def META_VER : Nat := 1
def REC_FINAL : Nat := 1
def REC_DEL : Nat := 2
def REC_START : Nat := 3
def MAX_FILES : Nat := 240

/-- `2^32`: all firmware integer arithmetic on `uint32_t` is taken modulo this. -/
def UINT32 : Nat := 4294967296

/-! ## Byte-level helpers -/

/-- Read byte `i` of a byte list (out of range reads give 0; never used out
of range by the embedded code paths). -/
def rd (bs : List Nat) (i : Nat) : Nat := bs.getD i 0

/-- Little-endian `uint16_t` at offset `off`, as read by the MCU from the
packed `MetaRecordBase` struct. -/
def le16 (bs : List Nat) (off : Nat) : Nat := rd bs off + 256 * rd bs (off + 1)

/-- Little-endian `uint32_t` at offset `off`. -/
def le32 (bs : List Nat) (off : Nat) : Nat :=
  rd bs off + 256 * rd bs (off + 1) + 65536 * rd bs (off + 2) + 16777216 * rd bs (off + 3)

/-- `isAllFF`: all bytes are `0xFF` (erased flash). -/
def isAllFF (bs : List Nat) : Bool := bs.all (fun b => b == 255)

/-- `crcSimple`: `s = s*131 + p[i]` in `uint32_t` arithmetic. -/
def crcSimple (bs : List Nat) : Nat :=
  bs.foldl (fun s x => (s * 131 + x) % UINT32) 0

/-- `crcSimple` starting from an arbitrary accumulator (proof helper). -/
def crcFrom (s : Nat) (bs : List Nat) : Nat :=
  bs.foldl (fun s x => (s * 131 + x) % UINT32) s

/-- `uint32_t` subtraction `a - b` (wraps modulo `2^32`); `b < 2^32` at all uses. -/
def sub32 (a b : Nat) : Nat := (a + (UINT32 - b % UINT32)) % UINT32

/-- Read `n` consecutive bytes from the flash at `addr` (`flashReadBytes`). -/
def readBytes (flash : Nat → Nat) (addr n : Nat) : List Nat :=
  (List.range n).map (fun j => flash (addr + j))

/-- Effect of C `strncpy(dst, src, 32)` followed by `dst[31] = 0`, where
`src` holds the bytes before the terminating NUL: copy until the first 0
(at most 32 bytes), zero-fill the rest, force a terminator at index 31.
The result always has length 32. -/
def strncpy32 (src : List Nat) : List Nat :=
  let k := min (src.takeWhile (fun b => b ≠ 0)).length 32
  (src.take k ++ List.replicate (32 - k) 0).set 31 0

/-! ## MetaRecord encoding (`writeMetaRecord` builds the 256-byte slot)

Packed layout of `MetaRecordBase` (little endian):
magic u32 @0, ver u16 @4, type u16 @6, seq u32 @8, startAddr u32 @12,
size u32 @16, year u16 @20, month/day/hour/minute/second u8 @22..26,
name `char[32]` @27, crc u32 @59; bytes 63..255 keep the `memset 0xFF`
padding.  With a NULL name pointer only `name[0]` is cleared and
`name[1..31]` keep `0xFF`. -/

/-- Little-endian byte list of length `k` for the value `v`. -/
def leBytes (k v : Nat) : List Nat := (List.range k).map (fun i => v / 256 ^ i % 256)

def encodeRecordBytes (ty seq startAddr size year mo da hh mm ss : Nat)
    (nameOrNone : Option (List Nat)) : List Nat :=
  let nameField : List Nat :=
    match nameOrNone with
    | none => 0 :: List.replicate 31 255
    | some nm => strncpy32 nm
  let body : List Nat :=
    leBytes 4 META_MAGIC ++ leBytes 2 META_VER ++ leBytes 2 ty ++ leBytes 4 seq ++
      leBytes 4 startAddr ++ leBytes 4 size ++ leBytes 2 year ++
      [mo, da, hh, mm, ss] ++ nameField
  body ++ leBytes 4 (crcSimple body) ++ List.replicate 193 255

/-! ## In-RAM file index -/

structure FileEntry where
  seq : Nat
  startAddr : Nat
  size : Nat
  year : Nat
  month : Nat
  day : Nat
  hour : Nat
  minute : Nat
  second : Nat
  name : List Nat
  incomplete : Bool
deriving Repr, DecidableEq, Inhabited

/-- `findIndexBySeq`: index of the first entry with the given seq, if any. -/
def findIndexBySeq : List FileEntry → Nat → Option Nat
  | [], _ => none
  | e :: rest, s => if e.seq = s then some 0 else (findIndexBySeq rest s).map (· + 1)

/-- `removeBySeq`: remove the first entry whose seq matches (array
shift-down in the source). -/
def removeBySeq : List FileEntry → Nat → List FileEntry
  | [], _ => []
  | e :: rest, s => if e.seq = s then rest else e :: removeBySeq rest s

/-- Entry inserted for a trusted START record (size estimated later). -/
def startEntryOf (bs : List Nat) : FileEntry :=
  { seq := le32 bs 8
    startAddr := le32 bs 12
    size := 0
    year := le16 bs 20
    month := rd bs 22
    day := rd bs 23
    hour := rd bs 24
    minute := rd bs 25
    second := rd bs 26
    name := strncpy32 ((bs.drop 27).take 32)
    incomplete := true }

/-- Entry inserted for a trusted FINAL record with no prior START. -/
def finalEntryOf (bs : List Nat) : FileEntry :=
  { seq := le32 bs 8
    startAddr := le32 bs 12
    size := le32 bs 16
    year := le16 bs 20
    month := rd bs 22
    day := rd bs 23
    hour := rd bs 24
    minute := rd bs 25
    second := rd bs 26
    name := strncpy32 ((bs.drop 27).take 32)
    incomplete := false }

/-- FINAL record overwriting an existing entry (the seq field is not
reassigned by the source in this branch). -/
def updFinal (e : FileEntry) (bs : List Nat) : FileEntry :=
  { e with
    startAddr := le32 bs 12
    size := le32 bs 16
    year := le16 bs 20
    month := rd bs 22
    day := rd bs 23
    hour := rd bs 24
    minute := rd bs 25
    second := rd bs 26
    name := strncpy32 ((bs.drop 27).take 32)
    incomplete := false }

/-- Replay action for a trusted START slot. -/
def applyStart (files : List FileEntry) (bs : List Nat) : List FileEntry :=
  if findIndexBySeq files (le32 bs 8) = none ∧ files.length < MAX_FILES then
    files ++ [startEntryOf bs]
  else files

/-- Replay action for a trusted FINAL slot. -/
def applyFinal (files : List FileEntry) (bs : List Nat) : List FileEntry :=
  match findIndexBySeq files (le32 bs 8) with
  | some i => files.set i (updFinal (files.getD i default) bs)
  | none =>
    if files.length < MAX_FILES then files ++ [finalEntryOf bs] else files

/-- A slot the replayer trusts: not erased, magic/version match, checksum
over the first 59 bytes (the fields before `crc`) matches, and the record
type is one of START/FINAL/DEL. -/
def trustedSlot (bs : List Nat) : Bool :=
  !isAllFF bs && (le32 bs 0 == META_MAGIC) && (le16 bs 4 == META_VER) &&
    (le32 bs 59 == crcSimple (bs.take 59)) &&
    (le16 bs 6 == REC_START || le16 bs 6 == REC_FINAL || le16 bs 6 == REC_DEL)

/-! ## Journal replay (`loadMetaIndex`) -/

/-- The 256 journal slots, 256 bytes each, read from `META_START`. -/
def metaSlots (flash : Nat → Nat) : List (List Nat) :=
  (List.range ((META_END - META_START) / EXT_PAGE_SIZE)).map
    (fun k => readBytes flash (META_START + EXT_PAGE_SIZE * k) EXT_PAGE_SIZE)

/-- The scan loop of `loadMetaIndex`: one recursive step per slot of the
`for (addr = META_START; addr < META_END; addr += EXT_PAGE_SIZE)` loop.
Returns `(files, curSeq, metaWriteAddr)`.  On any untrusted slot it stops
and the answer's cursor is that slot's address; if every slot is consumed
the cursor keeps the value it had on entry (the source sets
`metaWriteAddr = META_START` before the loop and then only assigns it in
the `break` paths). -/
def scanSlots : List (List Nat) → Nat → List FileEntry → Nat → Nat →
    List FileEntry × Nat × Nat
  | [], _, files, curSeq, mwa => (files, curSeq, mwa)
  | bs :: rest, addr, files, curSeq, _mwa =>
    if isAllFF bs = true then (files, curSeq, addr)
    else if le32 bs 0 ≠ META_MAGIC ∨ le16 bs 4 ≠ META_VER then (files, curSeq, addr)
    else if le32 bs 59 ≠ crcSimple (bs.take 59) then (files, curSeq, addr)
    else
      let curSeq2 := if curSeq < le32 bs 8 then le32 bs 8 else curSeq
      if le16 bs 6 = REC_START then
        scanSlots rest (addr + EXT_PAGE_SIZE) (applyStart files bs) curSeq2 _mwa
      else if le16 bs 6 = REC_FINAL then
        scanSlots rest (addr + EXT_PAGE_SIZE) (applyFinal files bs) curSeq2 _mwa
      else if le16 bs 6 = REC_DEL then
        scanSlots rest (addr + EXT_PAGE_SIZE) (removeBySeq files (le32 bs 12)) curSeq2 _mwa
      else (files, curSeq2, addr)

/-- The file-list effect of one trusted scan step, by record type (proof
helper; `scanSlots` on a trusted slot reduces to this, see
`scanSlots_cons_trusted`).  The final branch is reached only for DEL. -/
def stepFiles (files : List FileEntry) (bs : List Nat) : List FileEntry :=
  if le16 bs 6 = REC_START then applyStart files bs
  else if le16 bs 6 = REC_FINAL then applyFinal files bs
  else removeBySeq files (le32 bs 12)

/-- The `curSeq` effect of one trusted scan step (proof helper). -/
def stepSeq (curSeq : Nat) (bs : List Nat) : Nat :=
  if curSeq < le32 bs 8 then le32 bs 8 else curSeq

/-- `estimateSizeFromData` chunk loop.  The iteration-count argument is
exact: the loop body advances `addr` by 256 while `addr < DATA_END`, so
from any start it runs at most `DATA_END / 256 = 16384` times, the value
passed by `estimateSizeFromData`. -/
def estLoop (flash : Nat → Nat) (startAddr : Nat) : Nat → Nat → Nat
  | 0, addr =>
    if addr < DATA_END then 0 else sub32 DATA_END startAddr
  | itersLeft + 1, addr =>
    if addr < DATA_END then
      let chunk := readBytes flash addr 256
      if isAllFF chunk then addr - startAddr
      else
        match chunk.findIdx? (fun b => b = 255) with
        | some i => addr - startAddr + i
        | none => estLoop flash startAddr itersLeft (addr + 256)
    else sub32 DATA_END startAddr

/-- `estimateSizeFromData`: scan the data region forward from `startAddr`
for the first erased (`0xFF`) byte. -/
def estimateSizeFromData (flash : Nat → Nat) (startAddr : Nat) : Nat :=
  estLoop flash startAddr (DATA_END / 256) startAddr

/-- Size fixup applied to one entry after the scan (incomplete entries get
their size estimated from the data region). -/
def fixEntry (flash : Nat → Nat) (e : FileEntry) : FileEntry :=
  if e.incomplete = true then { e with size := estimateSizeFromData flash e.startAddr } else e

/-- The fixup loop of `loadMetaIndex`: estimate sizes of incomplete
entries and accumulate `dataWriteAddr` as the running maximum of the
`uint32_t` sums `startAddr + size`. -/
def fixupLoop (flash : Nat → Nat) : List FileEntry → Nat → List FileEntry × Nat
  | [], dwa => ([], dwa)
  | e :: rest, dwa =>
    let e2 := fixEntry flash e
    let endAddr := (e2.startAddr + e2.size) % UINT32
    let dwa2 := if dwa < endAddr then endAddr else dwa
    let out := fixupLoop flash rest dwa2
    (e2 :: out.1, out.2)

/-- The global engine state that `loadMetaIndex` rebuilds. -/
structure Ram where
  files : List FileEntry
  metaWriteAddr : Nat
  dataWriteAddr : Nat
  nextEraseSectorBase : Nat
  curSeq : Nat
deriving Repr, DecidableEq

/-- Boot-time values of the globals. -/
def Ram.boot : Ram :=
  { files := []
    metaWriteAddr := META_START
    dataWriteAddr := DATA_START
    nextEraseSectorBase := DATA_START
    curSeq := 0 }

/-- `loadMetaIndex`: full journal replay.  Every field of the state it
touches is rebuilt from the flash content alone (the source resets
`fileCount`, `metaWriteAddr`, `dataWriteAddr`, `curSeq` before scanning),
so the `prev` argument is discarded. -/
def loadMetaIndex (flash : Nat → Nat) (_prev : Ram) : Ram :=
  let scanned := scanSlots (metaSlots flash) META_START [] 0 META_START
  let fixed := fixupLoop flash scanned.1 DATA_START
  let dwa := if fixed.2 < DATA_START then DATA_START else fixed.2
  let neb := dwa / EXT_SECTOR_SIZE * EXT_SECTOR_SIZE
  let neb2 := if neb < DATA_START then DATA_START else neb
  { files := fixed.1
    metaWriteAddr := scanned.2.2
    dataWriteAddr := dwa
    nextEraseSectorBase := neb2
    curSeq := scanned.2.1 }

/-! ## Journal append (`writeMetaRecord`) -/

/-- A page-program of `bytes` at `base`: the slot was erased beforehand in
every code path, so programming is modelled as overwriting. -/
def progSlot (flash : Nat → Nat) (base : Nat) (bytes : List Nat) : Nat → Nat :=
  fun a => if base ≤ a ∧ a < base + bytes.length then bytes.getD (a - base) 255 else flash a

structure MetaWriteOut where
  ok : Bool
  metaWriteAddr : Nat
  flash : Nat → Nat
  progs : List (Nat × List Nat)

/-- `writeMetaRecord`: refuse (with no side effect) if the next 256-byte
slot would pass `META_END`; otherwise program exactly one slot at the
cursor and advance the cursor by one slot.  `progs` records the page
program operations issued. -/
def writeMetaRecord (metaWriteAddr : Nat) (flash : Nat → Nat)
    (ty seq startAddr size year mo da hh mm ss : Nat)
    (nameOrNone : Option (List Nat)) : MetaWriteOut :=
  if metaWriteAddr + EXT_PAGE_SIZE > META_END then
    { ok := false
      metaWriteAddr := metaWriteAddr
      flash := flash
      progs := [] }
  else
    let bytes := encodeRecordBytes ty seq startAddr size year mo da hh mm ss nameOrNone
    { ok := true
      metaWriteAddr := metaWriteAddr + EXT_PAGE_SIZE
      flash := progSlot flash metaWriteAddr bytes
      progs := [(metaWriteAddr, bytes)] }

/-! ## Lazy sector erase and the data-log stream writer -/

/-- The `while` loop of `ensureErasedForAddr`: erase every sector base in
`[nextErase, sectorBase]` that is below `DATA_END`, 4 KiB at a time.
Returns the erased sector bases in order and the new pointer.  The
iteration-count argument is exact: each pass adds `EXT_SECTOR_SIZE` to the
pointer while it stays below `DATA_END`, so from any start the loop body
runs at most `DATA_END / EXT_SECTOR_SIZE = 1024` times, the value passed
by `ensureErasedForAddr`. -/
def eraseLoopF (sectorBase : Nat) : Nat → Nat → List Nat × Nat
  | 0, nextErase => ([], nextErase)
  | itersLeft + 1, nextErase =>
    if nextErase ≤ sectorBase ∧ nextErase < DATA_END then
      let rest := eraseLoopF sectorBase itersLeft (nextErase + EXT_SECTOR_SIZE)
      (nextErase :: rest.1, rest.2)
    else ([], nextErase)

/-- `ensureErasedForAddr`: erase all not-yet-erased sectors up to and
including the sector of `addr`. -/
def ensureErasedForAddr (nextErase addr : Nat) : List Nat × Nat :=
  eraseLoopF (addr / EXT_SECTOR_SIZE * EXT_SECTOR_SIZE) (DATA_END / EXT_SECTOR_SIZE) nextErase

/-- Result of one `dataWriteStream` call: sector erases issued, page
programs issued (address and bytes), final write address, final erase
pointer, final running size counter, and whether the
`logging = false; finalizeNeeded = true; fullStop = true` path was taken. -/
structure DwOut where
  erases : List Nat
  progs : List (Nat × List Nat)
  addr : Nat
  nextErase : Nat
  curSize : Nat
  fullStop : Bool
deriving Repr, DecidableEq

/-- The chunk size of one `dataWriteStream` pass: the room left in the
current 256-byte page, capped by the remaining input length and clamped
so the write never passes `DATA_END`. -/
def dwChunk (addr len : Nat) : Nat :=
  let pageOff := addr % EXT_PAGE_SIZE
  let room := EXT_PAGE_SIZE - pageOff
  let chunk0 := if len < room then len else room
  if DATA_END < addr + chunk0 then DATA_END - addr else chunk0

/-- The `while (len > 0)` loop of `dataWriteStream`.  The iteration-count
argument is exact: every pass that recurses consumes `chunk ≥ 1` input
bytes, so `data.length` iterations (the value passed by
`dataWriteStream`) always suffice. -/
def dataWriteStreamF : Nat → Nat → Nat → Nat → List Nat → DwOut
  | _, addr, nextErase, curSize, [] =>
    { erases := [], progs := [], addr := addr, nextErase := nextErase
      curSize := curSize, fullStop := false }
  | 0, addr, nextErase, curSize, _ :: _ =>
    { erases := [], progs := [], addr := addr, nextErase := nextErase
      curSize := curSize, fullStop := false }
  | itersLeft + 1, addr, nextErase, curSize, data =>
    if DATA_END ≤ addr then
      { erases := [], progs := [], addr := addr, nextErase := nextErase
        curSize := curSize, fullStop := true }
    else
      let er := ensureErasedForAddr nextErase addr
      let chunk := dwChunk addr data.length
      if chunk = 0 then
        { erases := er.1, progs := [], addr := addr, nextErase := er.2
          curSize := curSize, fullStop := true }
      else if DATA_END ≤ addr + chunk then
        { erases := er.1, progs := [(addr, data.take chunk)], addr := addr + chunk
          nextErase := er.2, curSize := curSize + chunk, fullStop := true }
      else
        let rest := dataWriteStreamF itersLeft (addr + chunk) er.2 (curSize + chunk)
          (data.drop chunk)
        { erases := er.1 ++ rest.erases, progs := (addr, data.take chunk) :: rest.progs
          addr := rest.addr, nextErase := rest.nextErase, curSize := rest.curSize
          fullStop := rest.fullStop }

/-- `dataWriteStream`: page-bounded stream writer for the data region. -/
def dataWriteStream (addr nextErase curSize : Nat) (data : List Nat) : DwOut :=
  dataWriteStreamF data.length addr nextErase curSize data

/-- The reset of the erase pointer performed by `startLogNow` (and, with
`dataWriteAddr` as computed there, by `loadMetaIndex`):
`nextEraseSectorBase = (dataWriteAddr / EXT_SECTOR_SIZE) * EXT_SECTOR_SIZE`,
clamped up to `DATA_START`. -/
def sessionStartNextErase (dataWriteAddr : Nat) : Nat :=
  let neb := dataWriteAddr / EXT_SECTOR_SIZE * EXT_SECTOR_SIZE
  if neb < DATA_START then DATA_START else neb

/-! ## Concrete flash images used as witnesses / counterexamples -/

/-- A sample file name, as the byte list of `GPS_TEST.TXT`. -/
def testName : List Nat := [71, 80, 83, 95, 84, 69, 83, 84, 46, 84, 88, 84]

/-- Journal image whose 256 slots all hold the same valid FINAL record
(seq 1, zero-length file at `DATA_START`); data region erased. -/
def flashAllValid : Nat → Nat := fun a =>
  if a / 256 < 256 then
    (encodeRecordBytes REC_FINAL 1 DATA_START 0 2024 1 2 3 4 5 (some testName)).getD (a % 256) 255
  else 255

/-- Journal image holding START(seq 1) then FINAL(seq 1, 100 bytes at
`DATA_START`); everything else erased. -/
def flashOneFile : Nat → Nat := fun a =>
  if a < 256 then
    (encodeRecordBytes REC_START 1 DATA_START 0 2024 1 2 3 4 5 (some testName)).getD a 255
  else if a < 512 then
    (encodeRecordBytes REC_FINAL 1 DATA_START 100 2024 1 2 3 4 5 (some testName)).getD (a - 256) 255
  else 255

/-- `flashOneFile` after the delete operation the firmware performs for
that file: `writeMetaRecord_DEL` appends, at the replayed cursor 512 with
the replayed `curSeq = 1`, a DEL record with its own seq `curSeq + 1 = 2`
and the target seq 1 stored in the `startAddr` field (GPS time invalid,
so the timestamp fields are 0 and the name pointer is NULL). -/
def flashOneFileDeleted : Nat → Nat :=
  (writeMetaRecord 512 flashOneFile REC_DEL 2 1 0 0 0 0 0 0 0 none).flash

/-- A full in-RAM index: `MAX_FILES` entries with seqs `1..240` (used to
witness the capacity cap). -/
def capFiles : List FileEntry :=
  (List.range MAX_FILES).map (fun k =>
    { seq := k + 1
      startAddr := DATA_START
      size := 0
      year := 0
      month := 0
      day := 0
      hour := 0
      minute := 0
      second := 0
      name := []
      incomplete := false })

/-- Journal image for the tombstone witness: slot 0 a valid START record
for seq 7, slot 1 a valid DEL record (its own seq 8) targeting seq 7, the
rest erased. -/
def flashTombstone : Nat → Nat := fun a =>
  if a < 256 then
    (encodeRecordBytes REC_START 7 DATA_START 0 2024 1 2 3 4 5 (some testName)).getD a 255
  else if a < 512 then
    (encodeRecordBytes REC_DEL 8 7 0 0 0 0 0 0 0 none).getD (a - 256) 255
  else 255

/-! ## Streaming KML export (`/download_kml` handler)

The exporter is modelled structurally: the emitted placemark stream is a
list of `KmlElem` values (legend entries, colored track segments, Start
and End markers).  Decimal text is parsed into exact fractions (`Fx`, value `num / den`,
kept unnormalized so every operation is kernel-computable); the
`hsvToRgb`/`speedToKmlColor` color computation operates on the speed
value recorded in each element and is not itself modelled (no claim
concerns the RGB mapping).  The `sscanf` float syntax is modelled in its
decimal form (optional sign, digits with an optional fraction part); the
exponent/hex/inf forms never occur in logger payloads. -/

/-- An exact decimal fraction `num / den` (`den` is a power of ten, or the
fixed denominators 2 and 4 of the averaging and legend computations). -/
structure Fx where
  num : Int
  den : Nat
deriving Repr, DecidableEq

def isDigitB (c : Nat) : Bool := 48 ≤ c && c ≤ 57

def isSpaceB (c : Nat) : Bool := c == 32 || (9 ≤ c && c ≤ 13)

def digitsVal (ds : List Nat) : Nat := ds.foldl (fun v d => v * 10 + (d - 48)) 0

/-- `sscanf` `%f` (decimal form): skip whitespace, optional sign, digits
with optional `.` fraction; at least one digit overall.  Returns the
exact decimal value and the unconsumed input. -/
def parseFloat (cs : List Nat) : Option (Fx × List Nat) :=
  let cs1 := cs.dropWhile (fun c => isSpaceB c)
  let sgn : Int × List Nat :=
    match cs1 with
    | 43 :: t => (1, t)
    | 45 :: t => (-1, t)
    | _ => (1, cs1)
  let ip := sgn.2.takeWhile (fun c => isDigitB c)
  let cs2 := sgn.2.dropWhile (fun c => isDigitB c)
  match cs2 with
  | 46 :: t =>
    let fp := t.takeWhile (fun c => isDigitB c)
    let cs3 := t.dropWhile (fun c => isDigitB c)
    if ip = [] ∧ fp = [] then none
    else some (⟨sgn.1 * ((digitsVal ip : Int) * 10 ^ fp.length + (digitsVal fp : Int)),
      10 ^ fp.length⟩, cs3)
  | _ => if ip = [] then none else some (⟨sgn.1 * (digitsVal ip : Int), 1⟩, cs2)

/-- `sscanf` `%d`: skip whitespace, optional sign, at least one digit. -/
def parseIntTok (cs : List Nat) : Option (Int × List Nat) :=
  let cs1 := cs.dropWhile (fun c => isSpaceB c)
  let sgn : Int × List Nat :=
    match cs1 with
    | 43 :: t => (1, t)
    | 45 :: t => (-1, t)
    | _ => (1, cs1)
  let ds := sgn.2.takeWhile (fun c => isDigitB c)
  if ds = [] then none
  else some (sgn.1 * (digitsVal ds : Int), sgn.2.dropWhile (fun c => isDigitB c))

/-- Literal `,` in the `sscanf` format string. -/
def expectComma (cs : List Nat) : Option (List Nat) :=
  match cs with
  | 44 :: t => some t
  | _ => none

/-- `sscanf` `%39[^,]`: up to 39 non-comma characters, at least one. -/
def parseBracket39 (cs : List Nat) : Option (List Nat × List Nat) :=
  let tok := (cs.takeWhile (fun c => c ≠ 44)).take 39
  if tok = [] then none else some (tok, cs.drop tok.length)

/-- One parsed CSV sample point. -/
structure TrackPoint where
  lat : Fx
  lon : Fx
  alt : Int
  spd : Int
deriving Repr, DecidableEq

/-- `parseCsvLine`: `sscanf(line, "%f,%f,%d,%39[^,],%d") >= 5`.  The line
parses iff all five fields convert; trailing bytes are ignored. -/
def parseCsvLine (line : List Nat) : Option TrackPoint :=
  match parseFloat line with
  | none => none
  | some (lat, r1) =>
    match expectComma r1 with
    | none => none
    | some r2 =>
      match parseFloat r2 with
      | none => none
      | some (lon, r3) =>
        match expectComma r3 with
        | none => none
        | some r4 =>
          match parseIntTok r4 with
          | none => none
          | some (alt, r5) =>
            match expectComma r5 with
            | none => none
            | some r6 =>
              match parseBracket39 r6 with
              | none => none
              | some (_, r7) =>
                match expectComma r7 with
                | none => none
                | some r8 =>
                  match parseIntTok r8 with
                  | none => none
                  | some (spd, _) =>
                    some { lat := lat, lon := lon, alt := alt, spd := spd }

/-- The byte loop of `readLineFromFlash` with `maxLen = 180`: consume
bytes until a newline (consumed, not stored), skipping carriage returns,
stopping after 179 stored characters or at the end of the range.  Returns
the line and the unconsumed bytes. -/
def readLineAux : List Nat → Nat → List Nat → List Nat × List Nat
  | [], _, acc => (acc.reverse, [])
  | b :: rest, i, acc =>
    if i < 179 then
      if b = 10 then (acc.reverse, rest)
      else if b = 13 then readLineAux rest i acc
      else readLineAux rest (i + 1) (b :: acc)
    else (acc.reverse, b :: rest)

/-- The per-line loop shared by both export passes:
`while (addr < endAddr) { if (!readLineFromFlash(...)) break; ... }`,
where `readLineFromFlash` returns false iff it stored no character and
reached the end of the range.  The iteration-count argument is exact:
`readLineAux` always consumes at least one byte of a nonempty input
(its stored-character counter starts at 0 < 179), so `bytes.length`
iterations (the value passed by `collectLines`) always suffice. -/
def collectLinesF : Nat → List Nat → List (List Nat)
  | 0, _ => []
  | _ + 1, [] => []
  | itersLeft + 1, b :: rest =>
    let lr := readLineAux (b :: rest) 0 []
    if lr.1 = [] ∧ lr.2 = [] then []
    else lr.1 :: collectLinesF itersLeft lr.2

def collectLines (bytes : List Nat) : List (List Nat) :=
  collectLinesF bytes.length bytes

/-- The lines each export pass processes: both passes first consume the
header line with a bare `readLineFromFlash` call, then loop. -/
def payloadLines (payload : List Nat) : List (List Nat) :=
  collectLines (readLineAux payload 0 []).2

/-- Pass 1: `vmax` is the maximum parsed speed (invalid lines skipped),
floored to 1. -/
def vmaxOf (lines : List (List Nat)) : Int :=
  let v := lines.foldl
    (fun v l =>
      match parseCsvLine l with
      | some pt => if v < pt.spd then pt.spd else v
      | none => v)
    0
  if v < 1 then 1 else v

/-- One structural element of the streamed KML document. -/
inductive KmlElem where
  | legendEntry (speed : Fx)
  | segment (lat1 lon1 : Fx) (alt1 : Int) (lat2 lon2 : Fx) (alt2 : Int) (avgSpeed : Fx)
  | startMarker (lat lon : Fx) (alt : Int)
  | endMarker (lat lon : Fx) (alt : Int)
deriving Repr, DecidableEq

def KmlElem.isSegmentB : KmlElem → Bool
  | .segment .. => true
  | _ => false

def KmlElem.isStartB : KmlElem → Bool
  | .startMarker .. => true
  | _ => false

def KmlElem.isEndB : KmlElem → Bool
  | .endMarker .. => true
  | _ => false

/-- The legend folder: five entries at speeds `vmax * k / 4` for
`k = 4, 3, 2, 1, 0` (all arithmetic exact in the float range used). -/
def legendElems (vmax : Int) : List KmlElem :=
  ([4, 3, 2, 1, 0] : List Int).map (fun k => KmlElem.legendEntry ⟨vmax * k, 4⟩)

/-- Pass 2: for each valid point after the first, emit one segment from
the previous valid point, colored by the average of the two speeds; track
the first and last valid points for the Start/End markers.  Returns
`(segments, haveStart/start, end)`. -/
def pass2Scan : List (List Nat) → Option TrackPoint → Option TrackPoint → Option TrackPoint →
    List KmlElem × Option TrackPoint × Option TrackPoint
  | [], _, start?, end? => ([], start?, end?)
  | l :: ls, prev?, start?, end? =>
    match parseCsvLine l with
    | none => pass2Scan ls prev? start? end?
    | some pt =>
      let start2 := match start? with | none => some pt | some s => some s
      match prev? with
      | none => pass2Scan ls (some pt) start2 (some pt)
      | some pv =>
        let rest := pass2Scan ls (some pt) start2 (some pt)
        (KmlElem.segment pv.lat pv.lon pv.alt pt.lat pt.lon pt.alt
            ⟨pv.spd + pt.spd, 2⟩ :: rest.1,
          rest.2)

/-- The `/download_kml` handler body, at placemark granularity: legend,
then the pass-2 segments, then Start/End markers (emitted only when at
least one valid point was seen). -/
def download_kml (payload : List Nat) : List KmlElem :=
  let lines := payloadLines payload
  let vmax := vmaxOf lines
  let scan2 := pass2Scan lines none none none
  let markers : List KmlElem :=
    match scan2.2.1, scan2.2.2 with
    | some s, some e =>
      [KmlElem.startMarker s.lat s.lon s.alt, KmlElem.endMarker e.lat e.lon e.alt]
    | _, _ => []
  legendElems vmax ++ scan2.1 ++ markers

/-- The valid points of a payload, in order. -/
def kmlPoints (payload : List Nat) : List TrackPoint :=
  (payloadLines payload).filterMap parseCsvLine

/-- ASCII bytes of a string literal (used only for test payloads). -/
def strBytes (s : String) : List Nat := s.toList.map (fun c => c.toNat)

/-- Payload whose single data line fails to parse: zero valid points. -/
def payloadNoPoints : List Nat :=
  strBytes ("latitude,longitude,elevation,time,speed_kmh\r\nxyz\r\n")

/-- Payload with exactly one valid data line. -/
def payloadOnePoint : List Nat :=
  strBytes ("latitude,longitude,elevation,time,speed_kmh\r\n1.5,2.5,10,2024-01-02 03:04:05,7\r\n")

/-! ## Supporting lemmas -/

theorem leBytes_length (k v : Nat) : (leBytes k v).length = k := by
  simp [leBytes]

theorem length_takeWhile_le' (p : Nat → Bool) : ∀ l : List Nat, (l.takeWhile p).length ≤ l.length
  | [] => by simp [List.takeWhile]
  | b :: rest => by
    by_cases h : p b
    · simpa [List.takeWhile, h] using length_takeWhile_le' p rest
    · simp [List.takeWhile, h]

theorem strncpy32_length (src : List Nat) : (strncpy32 src).length = 32 := by
  have h1 := length_takeWhile_le' (fun b => decide (b ≠ 0)) src
  unfold strncpy32
  simp only [List.length_set, List.length_append, List.length_take, List.length_replicate]
  omega

theorem encodeRecordBytes_length (ty seq startAddr size year mo da hh mm ss : Nat)
    (nm : Option (List Nat)) :
    (encodeRecordBytes ty seq startAddr size year mo da hh mm ss nm).length = 256 := by
  unfold encodeRecordBytes
  cases nm <;>
    simp [leBytes_length, strncpy32_length, List.length_append, List.length_replicate]

/-- The `dataWriteAddr` accumulated by the fixup loop is the running
maximum over the fixed-up entries it returns. -/
theorem if_lt_max (a b : Nat) : (if a < b then b else a) = max a b := by
  split <;> omega

theorem fixupLoop_snd (flash : Nat → Nat) :
    ∀ (l : List FileEntry) (d : Nat),
      (fixupLoop flash l d).2 =
        List.foldl (fun dwa e => max dwa ((e.startAddr + e.size) % UINT32)) d
          (fixupLoop flash l d).1
  | [], d => by simp [fixupLoop]
  | e :: rest, d => by
    simp only [fixupLoop, List.foldl_cons, if_lt_max]
    exact fixupLoop_snd flash rest _

theorem le_foldl_max (l : List FileEntry) :
    ∀ d : Nat, d ≤ List.foldl (fun dwa e => max dwa ((e.startAddr + e.size) % UINT32)) d l := by
  induction l with
  | nil => intro d; simp
  | cons e rest ih =>
    intro d
    calc d ≤ max d ((e.startAddr + e.size) % UINT32) := Nat.le_max_left _ _
      _ ≤ _ := ih _

/-! ## Claim theorems -/

/-- Claim C7: replay is idempotent and deterministic: `loadMetaIndex`
rebuilds every field of the engine state it touches from the flash
content alone, so replaying twice gives exactly the state of replaying
once (index entries with all their fields in order, and both write
cursors). -/
theorem loadMetaIndex_idempotent (flash : Nat → Nat) (prev : Ram) :
    loadMetaIndex flash (loadMetaIndex flash prev) = loadMetaIndex flash prev := rfl

/-- Claim C6 (amended by nothing — as stated): journal append is atomic:
if the next 256-byte slot would exceed `META_END` the call fails with no
flash program and no state change; otherwise it issues exactly one
256-byte page program at the current cursor, leaves every byte outside
the slot untouched, and advances the cursor by one slot. -/
theorem writeMetaRecord_atomic (mwa : Nat) (flash : Nat → Nat)
    (ty seq startAddr size year mo da hh mm ss : Nat) (nm : Option (List Nat)) :
    (META_END < mwa + EXT_PAGE_SIZE →
      (writeMetaRecord mwa flash ty seq startAddr size year mo da hh mm ss nm).ok = false ∧
      (writeMetaRecord mwa flash ty seq startAddr size year mo da hh mm ss nm).metaWriteAddr = mwa ∧
      (writeMetaRecord mwa flash ty seq startAddr size year mo da hh mm ss nm).flash = flash ∧
      (writeMetaRecord mwa flash ty seq startAddr size year mo da hh mm ss nm).progs = []) ∧
    (mwa + EXT_PAGE_SIZE ≤ META_END →
      (writeMetaRecord mwa flash ty seq startAddr size year mo da hh mm ss nm).ok = true ∧
      (writeMetaRecord mwa flash ty seq startAddr size year mo da hh mm ss nm).metaWriteAddr
        = mwa + EXT_PAGE_SIZE ∧
      (writeMetaRecord mwa flash ty seq startAddr size year mo da hh mm ss nm).progs
        = [(mwa, encodeRecordBytes ty seq startAddr size year mo da hh mm ss nm)] ∧
      (encodeRecordBytes ty seq startAddr size year mo da hh mm ss nm).length = EXT_PAGE_SIZE ∧
      (∀ a, a < mwa ∨ mwa + EXT_PAGE_SIZE ≤ a →
        (writeMetaRecord mwa flash ty seq startAddr size year mo da hh mm ss nm).flash a
          = flash a) ∧
      (∀ i, i < EXT_PAGE_SIZE →
        (writeMetaRecord mwa flash ty seq startAddr size year mo da hh mm ss nm).flash (mwa + i)
          = (encodeRecordBytes ty seq startAddr size year mo da hh mm ss nm).getD i 255)) := by
  have hlen := encodeRecordBytes_length ty seq startAddr size year mo da hh mm ss nm
  constructor
  · intro h
    unfold writeMetaRecord
    rw [if_pos (by omega)]
    exact ⟨rfl, rfl, rfl, rfl⟩
  · intro h
    unfold writeMetaRecord
    rw [if_neg (by omega)]
    refine ⟨rfl, rfl, rfl, by simpa [EXT_PAGE_SIZE] using hlen, ?_, ?_⟩
    · intro a ha
      have ha' : a < mwa ∨ mwa + 256 ≤ a := by simpa [EXT_PAGE_SIZE] using ha
      show (if mwa ≤ a ∧
            a < mwa + (encodeRecordBytes ty seq startAddr size year mo da hh mm ss nm).length
          then (encodeRecordBytes ty seq startAddr size year mo da hh mm ss nm).getD (a - mwa) 255
          else flash a) = flash a
      rw [hlen, if_neg (by omega)]
    · intro i hi
      have hi' : i < 256 := by simpa [EXT_PAGE_SIZE] using hi
      show (if mwa ≤ mwa + i ∧
            mwa + i < mwa + (encodeRecordBytes ty seq startAddr size year mo da hh mm ss nm).length
          then (encodeRecordBytes ty seq startAddr size year mo da hh mm ss nm).getD
            (mwa + i - mwa) 255
          else flash (mwa + i))
        = (encodeRecordBytes ty seq startAddr size year mo da hh mm ss nm).getD i 255
      rw [hlen, if_pos (by omega), Nat.add_sub_cancel_left]

/-- Witness for C6: at cursor `META_END` the append fails; at cursor
`META_START` it succeeds. -/
theorem writeMetaRecord_atomic_witness :
    (writeMetaRecord META_END (fun _ => 255) REC_START 1 DATA_START 0 0 0 0 0 0 0
      (some testName)).ok = false ∧
    (writeMetaRecord META_START (fun _ => 255) REC_START 1 DATA_START 0 0 0 0 0 0 0
      (some testName)).ok = true :=
  ⟨((writeMetaRecord_atomic META_END (fun _ => 255) REC_START 1 DATA_START 0 0 0 0 0 0 0
      (some testName)).1 (by decide)).1,
    ((writeMetaRecord_atomic META_START (fun _ => 255) REC_START 1 DATA_START 0 0 0 0 0 0 0
      (some testName)).2 (by decide)).1⟩

/-- Claim C2, amended: after every replay the Data write cursor equals
the running maximum, over the rebuilt index entries, of the 32-bit sums
`startAddr + size`, accumulated from `DATA_START` (so it is clamped below
at the Data region start and equals `DATA_START` for an empty index); and
the cursor is not monotone across operations — a delete followed by
replay can lower it, as the second conjunct shows on the journal
`flashOneFile` (one finalized 100-byte file) versus the same journal
after the firmware's delete of that file (`flashOneFileDeleted`). -/
theorem loadMetaIndex_dataWriteAddr_max_and_regress :
    (∀ (flash : Nat → Nat) (prev : Ram),
      (loadMetaIndex flash prev).dataWriteAddr =
        List.foldl (fun dwa e => max dwa ((e.startAddr + e.size) % UINT32)) DATA_START
          (loadMetaIndex flash prev).files) ∧
    (loadMetaIndex flashOneFileDeleted Ram.boot).dataWriteAddr <
      (loadMetaIndex flashOneFile Ram.boot).dataWriteAddr := by
  constructor
  · intro flash prev
    have h1 := fixupLoop_snd flash (scanSlots (metaSlots flash) META_START [] 0 META_START).1
      DATA_START
    have h2 := le_foldl_max
      (fixupLoop flash (scanSlots (metaSlots flash) META_START [] 0 META_START).1 DATA_START).1
      DATA_START
    show (if (fixupLoop flash (scanSlots (metaSlots flash) META_START [] 0 META_START).1
          DATA_START).2 < DATA_START then DATA_START
        else (fixupLoop flash (scanSlots (metaSlots flash) META_START [] 0 META_START).1
          DATA_START).2) =
      List.foldl (fun dwa e => max dwa ((e.startAddr + e.size) % UINT32)) DATA_START
        (fixupLoop flash (scanSlots (metaSlots flash) META_START [] 0 META_START).1 DATA_START).1
    rw [if_neg (by omega)]
    exact h1
  · decide

/-- Counterexample to C2 as stated: the journal `flashOneFile` holds
START+FINAL for seq 1 (100 bytes at `DATA_START`); replay puts the Data
cursor at `DATA_START + 100`.  `flashOneFileDeleted` is the same journal
after the firmware's delete of that file (a DEL record appended at the
replayed cursor 512); replaying it returns the cursor to `DATA_START`,
i.e. the cursor regresses across delete-followed-by-replay. -/
theorem dataWriteAddr_regress_after_delete :
    (loadMetaIndex flashOneFile Ram.boot).dataWriteAddr = DATA_START + 100 ∧
    (loadMetaIndex flashOneFile Ram.boot).metaWriteAddr = 512 ∧
    (loadMetaIndex flashOneFile Ram.boot).curSeq = 1 ∧
    (loadMetaIndex flashOneFileDeleted Ram.boot).dataWriteAddr = DATA_START ∧
    (loadMetaIndex flashOneFileDeleted Ram.boot).dataWriteAddr <
      (loadMetaIndex flashOneFile Ram.boot).dataWriteAddr := by decide

/-- Claim C1 (code bug): on a journal whose 256 slots are all valid
records, the replay loop of `loadMetaIndex` falls through without ever
assigning the cursor, which therefore keeps the value `META_START` given
to it before the loop — not `META_END` — even though slot 0 holds a
trusted record; a subsequent `writeMetaRecord` then reports success
(instead of Full) and would program over written slot 0. -/
theorem loadMetaIndex_full_journal_cursor :
    (loadMetaIndex flashAllValid Ram.boot).metaWriteAddr = META_START ∧
    META_START ≠ META_END ∧
    trustedSlot (readBytes flashAllValid META_START EXT_PAGE_SIZE) = true ∧
    (writeMetaRecord META_START flashAllValid REC_START 2 DATA_START 0 2024 1 2 3 4 5
      (some testName)).ok = true := by decide

/-- Claim C3 (code bug): a first session writes 100 bytes at
`DATA_START`; `dataWriteStream` erases sector `DATA_START` exactly once
and leaves the erase pointer just past it.  The session-start /
replay reset then rewinds the pointer to the sector *floor* of the write
cursor (`DATA_START`), which is strictly below the pointer's previous
value, and the next session's very first write erases sector
`DATA_START` a second time — the sector that still holds every byte of
the previously finalized 100-byte file. -/
theorem erase_pointer_regress_reerase :
    (dataWriteStream DATA_START DATA_START 0 (List.replicate 100 65)).erases = [DATA_START] ∧
    (dataWriteStream DATA_START DATA_START 0 (List.replicate 100 65)).nextErase
      = DATA_START + EXT_SECTOR_SIZE ∧
    (dataWriteStream DATA_START DATA_START 0 (List.replicate 100 65)).addr = DATA_START + 100 ∧
    sessionStartNextErase (DATA_START + 100) = DATA_START ∧
    sessionStartNextErase (DATA_START + 100) < DATA_START + EXT_SECTOR_SIZE ∧
    (dataWriteStream (DATA_START + 100) (sessionStartNextErase (DATA_START + 100)) 0
      [66]).erases = [DATA_START] ∧
    DATA_START + 100 - 1 < DATA_START + EXT_SECTOR_SIZE := by decide

theorem dwChunk_spec (addr len : Nat) (h1 : addr < DATA_END) (h2 : len ≠ 0) :
    1 ≤ dwChunk addr len ∧ dwChunk addr len ≤ len ∧
      addr % EXT_PAGE_SIZE + dwChunk addr len ≤ EXT_PAGE_SIZE ∧
      addr + dwChunk addr len ≤ DATA_END := by
  simp only [dwChunk, EXT_PAGE_SIZE, DATA_END, FLASH_SIZE_BYTES] at *
  have hm : addr % 256 < 256 := Nat.mod_lt _ (by omega)
  by_cases hc : len < 256 - addr % 256
  · rw [if_pos hc]; split <;> omega
  · rw [if_neg hc]; split <;> omega

/-- Page/bound facts for every program operation emitted by the
`dataWriteStream` loop, for any iteration budget. -/
theorem dataWriteStreamF_progs_spec (itersLeft : Nat) :
    ∀ (addr nextErase curSize : Nat) (data : List Nat) (a : Nat) (bs : List Nat),
      (a, bs) ∈ (dataWriteStreamF itersLeft addr nextErase curSize data).progs →
      bs ≠ [] ∧ a % EXT_PAGE_SIZE + bs.length ≤ EXT_PAGE_SIZE ∧ a + bs.length ≤ DATA_END := by
  induction itersLeft with
  | zero =>
    intro addr ne cs data a bs hmem
    cases data with
    | nil => simp [dataWriteStreamF] at hmem
    | cons b t => simp [dataWriteStreamF] at hmem
  | succ n ih =>
    intro addr ne cs data a bs hmem
    cases data with
    | nil => simp [dataWriteStreamF] at hmem
    | cons b t =>
      by_cases h1 : DATA_END ≤ addr
      · simp [dataWriteStreamF, if_pos h1] at hmem
      · have hck : 1 ≤ dwChunk addr (t.length + 1) ∧ dwChunk addr (t.length + 1) ≤ t.length + 1 ∧
            addr % EXT_PAGE_SIZE + dwChunk addr (t.length + 1) ≤ EXT_PAGE_SIZE ∧
            addr + dwChunk addr (t.length + 1) ≤ DATA_END := by
          simpa using dwChunk_spec addr (b :: t).length (by omega) (by simp)
        by_cases h2 : dwChunk addr (t.length + 1) = 0
        · exact absurd h2 (by omega)
        · have htake : ((b :: t).take (dwChunk addr (t.length + 1))).length
              = dwChunk addr (t.length + 1) := by
            simp [List.length_take]; omega
          by_cases h3 : DATA_END ≤ addr + dwChunk addr (t.length + 1)
          · simp [dataWriteStreamF, if_neg h1, h2, if_pos h3] at hmem
            obtain ⟨rfl, rfl⟩ := hmem
            refine ⟨?_, ?_, ?_⟩
            · intro hnil; rw [hnil] at htake; simp at htake; omega
            · rw [htake]; exact hck.2.2.1
            · rw [htake]; exact hck.2.2.2
          · simp [dataWriteStreamF, if_neg h1, h2, if_neg h3] at hmem
            rcases hmem with ⟨rfl, rfl⟩ | hmem
            · refine ⟨?_, ?_, ?_⟩
              · intro hnil; rw [hnil] at htake; simp at htake; omega
              · rw [htake]; exact hck.2.2.1
              · rw [htake]; exact hck.2.2.2
            · exact ih _ _ _ _ _ _ hmem

/-- Claim C4: every page program emitted by `dataWriteStream`, for every
input byte sequence and every starting address, is nonempty, stays inside
one 256-byte page (first and last programmed byte share a page), and
never extends past `DATA_END`. -/
theorem dataWriteStream_page_bounded (addr nextErase curSize : Nat) (data : List Nat)
    (a : Nat) (bs : List Nat)
    (hmem : (a, bs) ∈ (dataWriteStream addr nextErase curSize data).progs) :
    bs ≠ [] ∧ a % EXT_PAGE_SIZE + bs.length ≤ EXT_PAGE_SIZE ∧
      a + bs.length ≤ DATA_END ∧
      a / EXT_PAGE_SIZE = (a + (bs.length - 1)) / EXT_PAGE_SIZE := by
  have h := dataWriteStreamF_progs_spec data.length addr nextErase curSize data a bs hmem
  refine ⟨h.1, h.2.1, h.2.2, ?_⟩
  have hlen : 1 ≤ bs.length := by
    cases bs with
    | nil => exact absurd rfl h.1
    | cons x xs => simp
  have h2 := h.2.1
  simp only [EXT_PAGE_SIZE] at *
  omega

/-- Witness for C4: the single program emitted for a 3-byte write at
`DATA_START` satisfies all the page bounds. -/
theorem dataWriteStream_page_bounded_witness :
    ([65, 66, 67] : List Nat) ≠ [] ∧
    DATA_START % EXT_PAGE_SIZE + ([65, 66, 67] : List Nat).length ≤ EXT_PAGE_SIZE ∧
    DATA_START + ([65, 66, 67] : List Nat).length ≤ DATA_END ∧
    DATA_START / EXT_PAGE_SIZE
      = (DATA_START + (([65, 66, 67] : List Nat).length - 1)) / EXT_PAGE_SIZE :=
  dataWriteStream_page_bounded DATA_START DATA_START 0 [65, 66, 67] DATA_START [65, 66, 67]
    (by decide)

/-! ## Checksum sensitivity -/

theorem crcSimple_eq_crcFrom (l : List Nat) : crcSimple l = crcFrom 0 l := rfl

theorem crcFrom_cons (s x : Nat) (l : List Nat) :
    crcFrom s (x :: l) = crcFrom ((s * 131 + x) % UINT32) l := rfl

theorem crcFrom_append (s : Nat) (l1 l2 : List Nat) :
    crcFrom s (l1 ++ l2) = crcFrom (crcFrom s l1) l2 := by
  simp [crcFrom, List.foldl_append]

/-- The fold of `crcSimple` is injective in its accumulator modulo `2^32`
(131 is odd, hence invertible modulo `2^32`). -/
theorem crcFrom_inj : ∀ (l : List Nat) (s t : Nat),
    crcFrom s l = crcFrom t l → s % UINT32 = t % UINT32
  | [], s, t, h => by
    simp only [crcFrom, List.foldl_nil] at h
    rw [h]
  | x :: l, s, t, h => by
    rw [crcFrom_cons, crcFrom_cons] at h
    have h1 := crcFrom_inj l _ _ h
    simp only [Nat.mod_mod] at h1
    have hm : s * 131 + x ≡ t * 131 + x [MOD UINT32] := h1
    have hm2 : s * 131 ≡ t * 131 [MOD UINT32] := hm.add_right_cancel' x
    have hgcd : Nat.gcd UINT32 131 = 1 := by decide
    exact hm2.cancel_right_of_coprime hgcd

theorem set_decomp : ∀ (l : List Nat) (i y : Nat), i < l.length →
    l.set i y = l.take i ++ y :: l.drop (i + 1)
  | [], i, y, h => by simp at h
  | a :: t, 0, y, _ => by simp
  | a :: t, i + 1, y, h => by
    simp only [List.set_cons_succ, List.take_succ_cons, List.drop_succ_cons, List.cons_append,
      List.cons.injEq, true_and]
    exact set_decomp t i y (by simpa using h)

theorem getD_decomp : ∀ (l : List Nat) (i : Nat), i < l.length →
    l = l.take i ++ l.getD i 0 :: l.drop (i + 1)
  | [], i, h => by simp at h
  | a :: t, 0, _ => by simp
  | a :: t, i + 1, h => by
    have ih := getD_decomp t i (by simpa using h)
    simp only [List.take_succ_cons, List.getD_cons_succ, List.drop_succ_cons, List.cons_append]
    exact congrArg (List.cons a) ih

theorem getD_mem : ∀ (l : List Nat) (i : Nat), i < l.length → l.getD i 0 ∈ l
  | [], i, h => absurd h (by simp)
  | a :: t, 0, _ => List.mem_cons_self _ _
  | a :: t, i + 1, h => by
    simp only [List.getD_cons_succ]
    exact List.mem_cons_of_mem _ (getD_mem t i (by simpa using h))

/-- Claim C8: flipping any single bit (bit `b < 8` of byte `i`) of a byte
sequence changes its `crcSimple` checksum. -/
theorem crcSimple_single_bit_flip (xs : List Nat) (i b : Nat)
    (hi : i < xs.length) (hb : b < 8) (hbytes : ∀ x ∈ xs, x < 256) :
    crcSimple (xs.set i ((xs.getD i 0) ^^^ (2 ^ b))) ≠ crcSimple xs := by
  intro heq
  have hxlt : xs.getD i 0 < 256 := hbytes _ (getD_mem xs i hi)
  have h2b : (2 : Nat) ^ b < 256 := by
    calc (2 : Nat) ^ b < 2 ^ 8 := Nat.pow_lt_pow_right (by norm_num) hb
      _ = 256 := by norm_num
  have hylt : (xs.getD i 0) ^^^ (2 ^ b) < 256 := by
    have hx8 : xs.getD i 0 < 2 ^ 8 := by simpa using hxlt
    have hb8 : (2 : Nat) ^ b < 2 ^ 8 := by simpa using h2b
    have h := Nat.bitwise_lt (f := bne) hx8 hb8
    simpa [HXor.hXor, Xor.xor, Nat.xor] using h
  have hxs : crcSimple xs =
      crcFrom ((crcFrom 0 (xs.take i) * 131 + xs.getD i 0) % UINT32) (xs.drop (i + 1)) := by
    conv_lhs => rw [getD_decomp xs i hi]
    rw [crcSimple_eq_crcFrom, crcFrom_append, crcFrom_cons]
  have hys : crcSimple (xs.set i ((xs.getD i 0) ^^^ (2 ^ b))) =
      crcFrom ((crcFrom 0 (xs.take i) * 131 + ((xs.getD i 0) ^^^ (2 ^ b))) % UINT32)
        (xs.drop (i + 1)) := by
    rw [set_decomp xs i _ hi, crcSimple_eq_crcFrom, crcFrom_append, crcFrom_cons]
  have hseed := crcFrom_inj (xs.drop (i + 1))
    ((crcFrom 0 (xs.take i) * 131 + ((xs.getD i 0) ^^^ (2 ^ b))) % UINT32)
    ((crcFrom 0 (xs.take i) * 131 + xs.getD i 0) % UINT32)
    (by rw [← hys, ← hxs]; exact heq)
  simp only [Nat.mod_mod] at hseed
  have hm : crcFrom 0 (xs.take i) * 131 + ((xs.getD i 0) ^^^ (2 ^ b)) ≡
      crcFrom 0 (xs.take i) * 131 + xs.getD i 0 [MOD UINT32] := hseed
  have hyx := hm.add_left_cancel' (crcFrom 0 (xs.take i) * 131)
  have hW : (256 : Nat) < UINT32 := by norm_num [UINT32]
  have heq2 : (xs.getD i 0) ^^^ (2 ^ b) = xs.getD i 0 := by
    have h1 : ((xs.getD i 0) ^^^ (2 ^ b)) % UINT32 = xs.getD i 0 % UINT32 := hyx
    rwa [Nat.mod_eq_of_lt (by omega), Nat.mod_eq_of_lt (by omega)] at h1
  have h2z : (2 : Nat) ^ b = 0 := by
    have h3 : (xs.getD i 0) ^^^ (2 ^ b) = (xs.getD i 0) ^^^ 0 := by
      rw [Nat.xor_zero]; exact heq2
    exact Nat.xor_right_inj.mp h3
  exact absurd h2z (Nat.pos_iff_ne_zero.mp (Nat.two_pow_pos b))

/-- Witness for C8: flipping bit 0 of byte 1 of `[1, 2, 3]` changes the
checksum. -/
theorem crcSimple_single_bit_flip_witness :
    crcSimple ([1, 2, 3].set 1 (([1, 2, 3].getD 1 0) ^^^ (2 ^ 0))) ≠ crcSimple [1, 2, 3] :=
  crcSimple_single_bit_flip [1, 2, 3] 1 0 (by decide) (by decide) (by decide)

/-! ## Scan-step lemmas -/

theorem trustedSlot_eq_true_iff (bs : List Nat) :
    trustedSlot bs = true ↔
      isAllFF bs = false ∧ le32 bs 0 = META_MAGIC ∧ le16 bs 4 = META_VER ∧
        le32 bs 59 = crcSimple (bs.take 59) ∧
        (le16 bs 6 = REC_START ∨ le16 bs 6 = REC_FINAL ∨ le16 bs 6 = REC_DEL) := by
  simp only [trustedSlot, Bool.and_eq_true, Bool.or_eq_true, Bool.not_eq_true', beq_iff_eq]
  tauto

theorem scanSlots_cons_trusted (bs : List Nat) (rest : List (List Nat)) (addr : Nat)
    (files : List FileEntry) (curSeq mwa : Nat) (h : trustedSlot bs = true) :
    scanSlots (bs :: rest) addr files curSeq mwa =
      scanSlots rest (addr + EXT_PAGE_SIZE) (stepFiles files bs) (stepSeq curSeq bs) mwa := by
  obtain ⟨h1, h2, h3, h4, h5⟩ := (trustedSlot_eq_true_iff bs).mp h
  rcases h5 with h5 | h5 | h5 <;>
    simp [scanSlots, h1, h2, h3, h4, h5, stepFiles, stepSeq, REC_START, REC_FINAL, REC_DEL]

theorem scanSlots_cons_untrusted (bs : List Nat) (rest : List (List Nat)) (addr : Nat)
    (files : List FileEntry) (curSeq mwa : Nat) (h : ¬ trustedSlot bs = true) :
    (scanSlots (bs :: rest) addr files curSeq mwa).1 = files := by
  simp only [scanSlots]
  by_cases c1 : isAllFF bs = true
  · rw [if_pos c1]
  · rw [if_neg c1]
    by_cases c2 : le32 bs 0 ≠ META_MAGIC ∨ le16 bs 4 ≠ META_VER
    · rw [if_pos c2]
    · rw [if_neg c2]
      by_cases c3 : le32 bs 59 ≠ crcSimple (bs.take 59)
      · rw [if_pos c3]
      · rw [if_neg c3]
        push_neg at c2
        have hty : ¬(le16 bs 6 = REC_START) ∧ ¬(le16 bs 6 = REC_FINAL) ∧
            ¬(le16 bs 6 = REC_DEL) := by
          by_contra hcon
          apply h
          rw [trustedSlot_eq_true_iff]
          refine ⟨by simpa using c1, c2.1, c2.2, by simpa using c3, ?_⟩
          tauto
        rw [if_neg hty.1, if_neg hty.2.1, if_neg hty.2.2]

theorem removeBySeq_sublist : ∀ (files : List FileEntry) (s : Nat),
    List.Sublist (removeBySeq files s) files
  | [], _ => List.Sublist.refl _
  | f :: rest, s => by
    by_cases hf : f.seq = s
    · simp only [removeBySeq, if_pos hf]
      exact List.sublist_cons_self _ _
    · simp only [removeBySeq, if_neg hf]
      exact List.Sublist.cons₂ _ (removeBySeq_sublist rest s)

theorem mem_removeBySeq (files : List FileEntry) (s : Nat) (e : FileEntry)
    (h : e ∈ removeBySeq files s) : e ∈ files :=
  (removeBySeq_sublist files s).subset h

theorem removeBySeq_no_target : ∀ (files : List FileEntry) (s : Nat),
    files.Pairwise (fun a b => a.seq ≠ b.seq) →
    ∀ e ∈ removeBySeq files s, e.seq ≠ s
  | [], s, _, e, h => by simp [removeBySeq] at h
  | f :: rest, s, hnd, e, h => by
    rw [List.pairwise_cons] at hnd
    by_cases hf : f.seq = s
    · simp only [removeBySeq, if_pos hf] at h
      intro hes
      exact (hnd.1 e h) (hf.trans hes.symm)
    · simp only [removeBySeq, if_neg hf] at h
      rcases List.mem_cons.mp h with rfl | h2
      · exact hf
      · exact removeBySeq_no_target rest s hnd.2 e h2

theorem mem_of_mem_set : ∀ (l : List FileEntry) (n : Nat) (x e : FileEntry),
    e ∈ l.set n x → e ∈ l ∨ e = x
  | [], n, x, e, h => by simp [List.set] at h
  | a :: t, 0, x, e, h => by
    simp only [List.set_cons_zero] at h
    rcases List.mem_cons.mp h with rfl | h2
    · exact Or.inr rfl
    · exact Or.inl (List.mem_cons_of_mem _ h2)
  | a :: t, n + 1, x, e, h => by
    simp only [List.set_cons_succ] at h
    rcases List.mem_cons.mp h with rfl | h2
    · exact Or.inl (List.mem_cons_self _ _)
    · rcases mem_of_mem_set t n x e h2 with h3 | h3
      · exact Or.inl (List.mem_cons_of_mem _ h3)
      · exact Or.inr h3

theorem getD_memFE : ∀ (l : List FileEntry) (i : Nat), i < l.length → l.getD i default ∈ l
  | [], i, h => absurd h (by simp)
  | a :: t, 0, _ => List.mem_cons_self _ _
  | a :: t, i + 1, h => by
    simp only [List.getD_cons_succ]
    exact List.mem_cons_of_mem _ (getD_memFE t i (by simpa using h))

theorem findIndexBySeq_some : ∀ (files : List FileEntry) (s i : Nat),
    findIndexBySeq files s = some i → i < files.length ∧ (files.getD i default).seq = s
  | [], s, i, h => by simp [findIndexBySeq] at h
  | f :: rest, s, i, h => by
    simp only [findIndexBySeq] at h
    by_cases hf : f.seq = s
    · rw [if_pos hf] at h
      have : i = 0 := by simpa using h.symm
      subst this
      exact ⟨by simp, by simpa using hf⟩
    · rw [if_neg hf] at h
      obtain ⟨j, hj, rfl⟩ := Option.map_eq_some'.mp h
      have ih := findIndexBySeq_some rest s j hj
      exact ⟨by simpa using Nat.succ_lt_succ ih.1, by simpa using ih.2⟩

theorem findIndexBySeq_none : ∀ (files : List FileEntry) (s : Nat),
    findIndexBySeq files s = none → ∀ e ∈ files, e.seq ≠ s
  | [], s, _, e, he => by simp at he
  | f :: rest, s, h, e, he => by
    simp only [findIndexBySeq] at h
    by_cases hf : f.seq = s
    · rw [if_pos hf] at h; simp at h
    · rw [if_neg hf] at h
      rcases List.mem_cons.mp he with rfl | h2
      · exact hf
      · exact findIndexBySeq_none rest s (by simpa using h) e h2

theorem mem_applyStart (files : List FileEntry) (bs : List Nat) (e : FileEntry)
    (h : e ∈ applyStart files bs) : e ∈ files ∨ e.seq = le32 bs 8 := by
  unfold applyStart at h
  split_ifs at h
  · rcases List.mem_append.mp h with h2 | h2
    · exact Or.inl h2
    · right
      have he : e = startEntryOf bs := by simpa using h2
      rw [he]; rfl
  · exact Or.inl h

theorem mem_applyFinal_seq (files : List FileEntry) (bs : List Nat) (e : FileEntry)
    (h : e ∈ applyFinal files bs) : (∃ e0 ∈ files, e.seq = e0.seq) ∨ e.seq = le32 bs 8 := by
  unfold applyFinal at h
  cases hfind : findIndexBySeq files (le32 bs 8) with
  | some i =>
    rw [hfind] at h
    have hspec := findIndexBySeq_some files (le32 bs 8) i hfind
    rcases mem_of_mem_set files i _ e h with h2 | h2
    · exact Or.inl ⟨e, h2, rfl⟩
    · right
      rw [h2]
      exact hspec.2
  | none =>
    rw [hfind] at h
    split_ifs at h
    · rcases List.mem_append.mp h with h2 | h2
      · exact Or.inl ⟨e, h2, rfl⟩
      · right
        have he : e = finalEntryOf bs := by simpa using h2
        rw [he]; rfl
    · exact Or.inl ⟨e, h, rfl⟩

theorem nodup_set_same_seq : ∀ (l : List FileEntry) (n : Nat) (x : FileEntry),
    n < l.length → x.seq = (l.getD n default).seq →
    l.Pairwise (fun a b => a.seq ≠ b.seq) → (l.set n x).Pairwise (fun a b => a.seq ≠ b.seq)
  | [], n, x, hn, _, _ => absurd hn (by simp)
  | a :: t, 0, x, _, hx, hnd => by
    simp only [List.set_cons_zero]
    rw [List.pairwise_cons] at hnd ⊢
    refine ⟨fun b hb => ?_, hnd.2⟩
    rw [hx]
    simpa using hnd.1 b hb
  | a :: t, n + 1, x, hn, hx, hnd => by
    simp only [List.set_cons_succ]
    rw [List.pairwise_cons] at hnd ⊢
    refine ⟨fun b hb => ?_, nodup_set_same_seq t n x (by simpa using hn) (by simpa using hx)
      hnd.2⟩
    rcases mem_of_mem_set t n x b hb with h2 | h2
    · exact hnd.1 b h2
    · subst h2
      have hmem := getD_memFE t n (by simpa using hn)
      rw [hx]
      simpa using hnd.1 _ hmem

theorem nodup_applyStart (files : List FileEntry) (bs : List Nat)
    (h : files.Pairwise (fun a b => a.seq ≠ b.seq)) :
    (applyStart files bs).Pairwise (fun a b => a.seq ≠ b.seq) := by
  unfold applyStart
  split_ifs with hg
  · rw [List.pairwise_append]
    refine ⟨h, List.pairwise_singleton _ _, fun a ha b hb => ?_⟩
    have hb2 : b = startEntryOf bs := by simpa using hb
    subst hb2
    exact findIndexBySeq_none files (le32 bs 8) hg.1 a ha
  · exact h

theorem nodup_applyFinal (files : List FileEntry) (bs : List Nat)
    (h : files.Pairwise (fun a b => a.seq ≠ b.seq)) :
    (applyFinal files bs).Pairwise (fun a b => a.seq ≠ b.seq) := by
  unfold applyFinal
  cases hfind : findIndexBySeq files (le32 bs 8) with
  | some i =>
    have hspec := findIndexBySeq_some files (le32 bs 8) i hfind
    exact nodup_set_same_seq files i _ hspec.1 rfl h
  | none =>
    split_ifs
    · rw [List.pairwise_append]
      refine ⟨h, List.pairwise_singleton _ _, fun a ha b hb => ?_⟩
      have hb2 : b = finalEntryOf bs := by simpa using hb
      subst hb2
      exact findIndexBySeq_none files (le32 bs 8) hfind a ha
    · exact h

theorem nodup_stepFiles (files : List FileEntry) (bs : List Nat)
    (h : files.Pairwise (fun a b => a.seq ≠ b.seq)) :
    (stepFiles files bs).Pairwise (fun a b => a.seq ≠ b.seq) := by
  unfold stepFiles
  split_ifs
  · exact nodup_applyStart files bs h
  · exact nodup_applyFinal files bs h
  · exact h.sublist (removeBySeq_sublist files _)

theorem stepFiles_no_seq (files : List FileEntry) (bs : List Nat) (S : Nat)
    (hfiles : ∀ e ∈ files, e.seq ≠ S)
    (hslot : ¬((le16 bs 6 = REC_START ∨ le16 bs 6 = REC_FINAL) ∧ le32 bs 8 = S)) :
    ∀ e ∈ stepFiles files bs, e.seq ≠ S := by
  intro e he
  unfold stepFiles at he
  split_ifs at he with h1 h2
  · rcases mem_applyStart files bs e he with h | h
    · exact hfiles e h
    · intro hS
      exact hslot ⟨Or.inl h1, h.symm.trans hS⟩
  · rcases mem_applyFinal_seq files bs e he with ⟨e0, he0, hseq⟩ | h
    · rw [hseq]; exact hfiles e0 he0
    · intro hS
      exact hslot ⟨Or.inr h2, h.symm.trans hS⟩
  · exact hfiles e (mem_removeBySeq files _ e he)

theorem scanSlots_no_seq (S : Nat) : ∀ (slots : List (List Nat)) (addr : Nat)
    (files : List FileEntry) (curSeq mwa : Nat),
    (∀ e ∈ files, e.seq ≠ S) →
    (∀ bs ∈ slots,
      ¬(trustedSlot bs = true ∧ (le16 bs 6 = REC_START ∨ le16 bs 6 = REC_FINAL) ∧
        le32 bs 8 = S)) →
    ∀ e ∈ (scanSlots slots addr files curSeq mwa).1, e.seq ≠ S
  | [], addr, files, curSeq, mwa, hf, _ => by simpa [scanSlots] using hf
  | bs :: rest, addr, files, curSeq, mwa, hf, hs => by
    by_cases ht : trustedSlot bs = true
    · rw [scanSlots_cons_trusted _ _ _ _ _ _ ht]
      exact scanSlots_no_seq S rest _ _ _ _
        (stepFiles_no_seq files bs S hf (fun hc => hs bs (List.mem_cons_self _ _) ⟨ht, hc⟩))
        (fun b hb => hs b (List.mem_cons_of_mem _ hb))
    · intro e he
      rw [scanSlots_cons_untrusted bs rest addr files curSeq mwa ht] at he
      exact hf e he

theorem scanSlots_append_trusted : ∀ (ms1 rest : List (List Nat)) (addr : Nat)
    (files : List FileEntry) (curSeq mwa : Nat),
    (∀ bs ∈ ms1, trustedSlot bs = true) →
    ∃ files2 curSeq2,
      scanSlots (ms1 ++ rest) addr files curSeq mwa =
        scanSlots rest (addr + EXT_PAGE_SIZE * ms1.length) files2 curSeq2 mwa ∧
      (files.Pairwise (fun a b => a.seq ≠ b.seq) →
        files2.Pairwise (fun a b => a.seq ≠ b.seq))
  | [], rest, addr, files, curSeq, mwa, _ => ⟨files, curSeq, by simp, fun hh => hh⟩
  | bs :: ms1, rest, addr, files, curSeq, mwa, h => by
    have ht := h bs (List.mem_cons_self _ _)
    obtain ⟨files2, curSeq2, heq, hnd⟩ := scanSlots_append_trusted ms1 rest
      (addr + EXT_PAGE_SIZE) (stepFiles files bs) (stepSeq curSeq bs) mwa
      (fun b hb => h b (List.mem_cons_of_mem _ hb))
    refine ⟨files2, curSeq2, ?_, fun hh => hnd (nodup_stepFiles files bs hh)⟩
    rw [List.cons_append, scanSlots_cons_trusted _ _ _ _ _ _ ht, heq]
    have haddr : addr + EXT_PAGE_SIZE + EXT_PAGE_SIZE * ms1.length
        = addr + EXT_PAGE_SIZE * (bs :: ms1).length := by
      simp [List.length_cons]
      ring
    rw [haddr]

theorem fixupLoop_fst (flash : Nat → Nat) : ∀ (l : List FileEntry) (d : Nat),
    (fixupLoop flash l d).1 = l.map (fixEntry flash)
  | [], d => by simp [fixupLoop]
  | e :: rest, d => by
    simp only [fixupLoop, List.map_cons, List.cons.injEq, true_and]
    exact fixupLoop_fst flash rest _

theorem fixEntry_seq (flash : Nat → Nat) (e : FileEntry) : (fixEntry flash e).seq = e.seq := by
  unfold fixEntry
  split <;> rfl

/-- Claim C5: the tombstone law.  If the journal's slot sequence splits as
a trusted prefix `ms1`, a trusted DEL record targeting seq `S` (the
target is the value stored in the record's `startAddr` field, bytes
12..15), and a remainder `ms2` containing no trusted START or FINAL
record for `S`, then no entry with seq `S` survives replay. -/
theorem tombstone_law (flash : Nat → Nat) (prev : Ram)
    (ms1 : List (List Nat)) (dslot : List Nat) (ms2 : List (List Nat)) (S : Nat)
    (hsplit : metaSlots flash = ms1 ++ dslot :: ms2)
    (h1 : ∀ bs ∈ ms1, trustedSlot bs = true)
    (hdel : trustedSlot dslot = true)
    (hty : le16 dslot 6 = REC_DEL)
    (htgt : le32 dslot 12 = S)
    (h2 : ∀ bs ∈ ms2,
      ¬(trustedSlot bs = true ∧ (le16 bs 6 = REC_START ∨ le16 bs 6 = REC_FINAL) ∧
        le32 bs 8 = S)) :
    ∀ e ∈ (loadMetaIndex flash prev).files, e.seq ≠ S := by
  intro e he
  have hfix : (loadMetaIndex flash prev).files =
      (fixupLoop flash (scanSlots (metaSlots flash) META_START [] 0 META_START).1
        DATA_START).1 := rfl
  rw [hfix, fixupLoop_fst] at he
  obtain ⟨e0, he0, rfl⟩ := List.mem_map.mp he
  rw [fixEntry_seq]
  rw [hsplit] at he0
  obtain ⟨files2, curSeq2, heq, hnd⟩ :=
    scanSlots_append_trusted ms1 (dslot :: ms2) META_START [] 0 META_START h1
  rw [heq, scanSlots_cons_trusted _ _ _ _ _ _ hdel] at he0
  have hstep : stepFiles files2 dslot = removeBySeq files2 (le32 dslot 12) := by
    unfold stepFiles
    rw [if_neg (by rw [hty]; decide), if_neg (by rw [hty]; decide)]
  have hnd2 := hnd List.Pairwise.nil
  have hsf : ∀ x ∈ stepFiles files2 dslot, x.seq ≠ S := by
    rw [hstep, htgt]
    exact removeBySeq_no_target files2 S hnd2
  exact scanSlots_no_seq S ms2 _ _ _ _ hsf h2 e0 he0

theorem list_split2 : ∀ (L : List (List Nat)), 2 ≤ L.length →
    L = L.take 1 ++ L.getD 1 [] :: L.drop 2
  | [], h => absurd h (by simp)
  | [a], h => absurd h (by simp)
  | a :: b :: t, _ => by simp

/-- Witness for C5: in the journal `flashTombstone` (START seq 7, then a
DEL targeting seq 7, rest erased), no replayed entry has seq 7. -/
theorem tombstone_law_witness :
    ((loadMetaIndex flashTombstone Ram.boot).files.all (fun e => e.seq != 7)) = true := by
  have hlen : (metaSlots flashTombstone).length = 256 := by
    simp [metaSlots, META_END, META_START, EXT_PAGE_SIZE]
  have hsplit := list_split2 (metaSlots flashTombstone) (by rw [hlen]; omega)
  have h := tombstone_law flashTombstone Ram.boot
    ((metaSlots flashTombstone).take 1)
    ((metaSlots flashTombstone).getD 1 [])
    ((metaSlots flashTombstone).drop 2) 7 hsplit
    (by decide) (by decide) (by decide) (by decide) (by decide)
  rw [List.all_eq_true]
  intro e he
  simpa using h e he

/-! ## Capacity cap -/

theorem length_applyStart_le (files : List FileEntry) (bs : List Nat)
    (h : files.length ≤ MAX_FILES) : (applyStart files bs).length ≤ MAX_FILES := by
  unfold applyStart
  split_ifs with hg
  · simp only [List.length_append, List.length_cons, List.length_nil]
    omega
  · exact h

theorem length_applyFinal_le (files : List FileEntry) (bs : List Nat)
    (h : files.length ≤ MAX_FILES) : (applyFinal files bs).length ≤ MAX_FILES := by
  unfold applyFinal
  cases hfind : findIndexBySeq files (le32 bs 8) with
  | some i => simpa using h
  | none =>
    split_ifs with hg
    · simp only [List.length_append, List.length_cons, List.length_nil]
      omega
    · exact h

theorem length_stepFiles_le (files : List FileEntry) (bs : List Nat)
    (h : files.length ≤ MAX_FILES) : (stepFiles files bs).length ≤ MAX_FILES := by
  unfold stepFiles
  split_ifs
  · exact length_applyStart_le files bs h
  · exact length_applyFinal_le files bs h
  · exact le_trans ((removeBySeq_sublist files _).length_le) h

theorem scanSlots_length_le : ∀ (slots : List (List Nat)) (addr : Nat)
    (files : List FileEntry) (curSeq mwa : Nat),
    files.length ≤ MAX_FILES → (scanSlots slots addr files curSeq mwa).1.length ≤ MAX_FILES
  | [], addr, files, curSeq, mwa, h => by simpa [scanSlots] using h
  | bs :: rest, addr, files, curSeq, mwa, h => by
    by_cases ht : trustedSlot bs = true
    · rw [scanSlots_cons_trusted _ _ _ _ _ _ ht]
      exact scanSlots_length_le rest _ _ _ _ (length_stepFiles_le files bs h)
    · rw [show (scanSlots (bs :: rest) addr files curSeq mwa).1 = files from
        scanSlots_cons_untrusted bs rest addr files curSeq mwa ht]
      exact h

/-- Claim C10: the in-memory index caps at `MAX_FILES = 240` entries while
the journal region holds 256 slots; when the index is full, a trusted
START record (or a trusted FINAL record with no prior START) is silently
dropped — the file list is unchanged and the scan continues with the next
slot, so the record is absent from the rebuilt index that every
list/download/export/delete view reads. -/
theorem fileIndex_capacity_cap :
    (∀ (flash : Nat → Nat) (prev : Ram),
      (loadMetaIndex flash prev).files.length ≤ MAX_FILES) ∧
    (META_END - META_START) / EXT_PAGE_SIZE = 256 ∧
    (∀ flash : Nat → Nat, (metaSlots flash).length = 256) ∧
    (∀ (rest : List (List Nat)) (addr : Nat) (files : List FileEntry) (curSeq mwa : Nat)
      (bs : List Nat),
      files.length = MAX_FILES → trustedSlot bs = true →
      (le16 bs 6 = REC_START ∨
        (le16 bs 6 = REC_FINAL ∧ findIndexBySeq files (le32 bs 8) = none)) →
      scanSlots (bs :: rest) addr files curSeq mwa =
        scanSlots rest (addr + EXT_PAGE_SIZE) files (stepSeq curSeq bs) mwa) := by
  refine ⟨?_, by decide, ?_, ?_⟩
  · intro flash prev
    have hfix : (loadMetaIndex flash prev).files =
        (fixupLoop flash (scanSlots (metaSlots flash) META_START [] 0 META_START).1
          DATA_START).1 := rfl
    rw [hfix, fixupLoop_fst, List.length_map]
    exact scanSlots_length_le (metaSlots flash) META_START [] 0 META_START (by simp [MAX_FILES])
  · intro flash
    simp [metaSlots, META_END, META_START, EXT_PAGE_SIZE]
  · intro rest addr files curSeq mwa bs hfull ht hty
    rw [scanSlots_cons_trusted _ _ _ _ _ _ ht]
    have hstep : stepFiles files bs = files := by
      unfold stepFiles
      rcases hty with hS | ⟨hF, hfind⟩
      · rw [if_pos hS]
        unfold applyStart
        rw [if_neg (by rw [hfull]; simp)]
      · rw [if_neg (by rw [hF]; decide), if_pos hF]
        unfold applyFinal
        rw [hfind]
        rw [if_neg (by rw [hfull]; simp)]
    rw [hstep]

/-- Witness for C10: with a full index of 240 entries, a trusted START
record for the fresh seq 500 is dropped and the scan moves on with the
file list unchanged. -/
theorem fileIndex_capacity_cap_witness :
    scanSlots [encodeRecordBytes REC_START 500 DATA_START 0 2024 1 1 0 0 0 (some testName)]
        (META_START + 240 * EXT_PAGE_SIZE) capFiles 240 META_START =
      scanSlots [] (META_START + 240 * EXT_PAGE_SIZE + EXT_PAGE_SIZE) capFiles
        (stepSeq 240 (encodeRecordBytes REC_START 500 DATA_START 0 2024 1 1 0 0 0
          (some testName)))
        META_START :=
  fileIndex_capacity_cap.2.2.2 []
    (META_START + 240 * EXT_PAGE_SIZE) capFiles 240 META_START
    (encodeRecordBytes REC_START 500 DATA_START 0 2024 1 1 0 0 0 (some testName))
    (by decide) (by decide) (Or.inl (by decide))

/-! ## KML exporter: fewer than two valid points -/

theorem pass2Scan_no_valid : ∀ (ls : List (List Nat)) (prev? s? e? : Option TrackPoint),
    ls.filterMap parseCsvLine = [] →
    pass2Scan ls prev? s? e? = ([], s?, e?)
  | [], _, _, _, _ => rfl
  | l :: ls, prev?, s?, e?, h => by
    rw [List.filterMap_cons] at h
    cases hp : parseCsvLine l with
    | none =>
      rw [hp] at h
      simp only [pass2Scan, hp]
      exact pass2Scan_no_valid ls _ _ _ h
    | some pt =>
      rw [hp] at h
      simp at h

theorem pass2Scan_one_valid : ∀ (ls : List (List Nat)) (s? e? : Option TrackPoint)
    (pt : TrackPoint),
    ls.filterMap parseCsvLine = [pt] →
    pass2Scan ls none s? e? =
      ([], (match s? with | none => some pt | some s => some s), some pt)
  | [], _, _, pt, h => by simp at h
  | l :: ls, s?, e?, pt, h => by
    rw [List.filterMap_cons] at h
    cases hp : parseCsvLine l with
    | none =>
      rw [hp] at h
      simp only [pass2Scan, hp]
      exact pass2Scan_one_valid ls s? e? pt h
    | some q =>
      rw [hp] at h
      simp only [List.cons.injEq] at h
      obtain ⟨rfl, htail⟩ := h
      simp only [pass2Scan, hp]
      rw [pass2Scan_no_valid ls _ _ _ htail]

theorem legendElems_no_marker (vmax : Int) (el : KmlElem) (h : el ∈ legendElems vmax) :
    el.isSegmentB = false ∧ el.isStartB = false ∧ el.isEndB = false := by
  simp only [legendElems, List.mem_map] at h
  obtain ⟨k, _, rfl⟩ := h
  exact ⟨rfl, rfl, rfl⟩

/-- Claim C9, amended: a payload with fewer than 2 valid points produces
legend-only output with no track segments; with exactly one valid point
the output additionally carries Start and End markers at that same single
point, but with zero valid points no Start/End markers are emitted at all
(the original claim's "degenerate marker pair" does not appear then, see
`kml_zero_points_no_markers`). -/
theorem download_kml_few_points (payload : List Nat)
    (h : (kmlPoints payload).length < 2) :
    (∀ el ∈ download_kml payload, el.isSegmentB = false) ∧
    (kmlPoints payload = [] →
      download_kml payload = legendElems (vmaxOf (payloadLines payload))) ∧
    (∀ pt : TrackPoint, kmlPoints payload = [pt] →
      download_kml payload = legendElems (vmaxOf (payloadLines payload)) ++
        [KmlElem.startMarker pt.lat pt.lon pt.alt,
          KmlElem.endMarker pt.lat pt.lon pt.alt]) := by
  cases hpts : kmlPoints payload with
  | nil =>
    have hscan : pass2Scan (payloadLines payload) none none none = ([], none, none) :=
      pass2Scan_no_valid (payloadLines payload) none none none hpts
    have hdl : download_kml payload = legendElems (vmaxOf (payloadLines payload)) := by
      simp [download_kml, hscan]
    refine ⟨?_, fun _ => hdl, fun pt hpt => ?_⟩
    · intro el hel
      rw [hdl] at hel
      exact (legendElems_no_marker _ el hel).1
    · simp at hpt
  | cons pt0 tail =>
    cases tail with
    | nil =>
      have hscan : pass2Scan (payloadLines payload) none none none =
          ([], some pt0, some pt0) :=
        pass2Scan_one_valid (payloadLines payload) none none pt0 hpts
      have hdl : download_kml payload = legendElems (vmaxOf (payloadLines payload)) ++
          [KmlElem.startMarker pt0.lat pt0.lon pt0.alt,
            KmlElem.endMarker pt0.lat pt0.lon pt0.alt] := by
        simp [download_kml, hscan]
      refine ⟨?_, fun h0 => ?_, fun pt hpt => ?_⟩
      · intro el hel
        rw [hdl] at hel
        rcases List.mem_append.mp hel with h1 | h1
        · exact (legendElems_no_marker _ el h1).1
        · rcases List.mem_cons.mp h1 with rfl | h2
          · rfl
          · rcases List.mem_cons.mp h2 with rfl | h3
            · rfl
            · simp at h3
      · simp at h0
      · have hp : pt0 = pt := by simpa using hpt
        rw [← hp]
        exact hdl
    | cons pt1 tail2 =>
      rw [hpts] at h
      simp at h
      omega

/-- Counterexample to C9 as stated: `payloadNoPoints` yields zero valid
points (fewer than 2), yet the exported stream contains no Start marker
and no End marker at all — not a degenerate Start=End pair. -/
theorem kml_zero_points_no_markers :
    (kmlPoints payloadNoPoints).length < 2 ∧
    (download_kml payloadNoPoints).all
      (fun el => !(el.isStartB || el.isEndB) && !el.isSegmentB) = true := by decide

/-- Witness for C9 (amended): one valid point produces legend plus a
degenerate Start=End marker pair at that point. -/
theorem download_kml_few_points_witness :
    download_kml payloadOnePoint = legendElems (vmaxOf (payloadLines payloadOnePoint)) ++
      [KmlElem.startMarker ⟨15, 10⟩ ⟨25, 10⟩ 10, KmlElem.endMarker ⟨15, 10⟩ ⟨25, 10⟩ 10] :=
  (download_kml_few_points payloadOnePoint (by decide)).2.2
    ⟨⟨15, 10⟩, ⟨25, 10⟩, 10, 7⟩ (by decide)

end GpsLogger
